import Mathlib

/-!
Verification development for the Loom pattern-weaver core
(`src/loom/core.py`, `graph.py`, `weaver.py`, `evolver.py`, `auditor.py`).

The Python code is shallowly embedded: catalog entries, patterns, graphs
and audit findings become Lean structures; Python floats become `ℚ`
(every score and threshold in the source is an exact decimal); Python
dicts become insertion-ordered association lists, matching the
insertion-order iteration semantics of CPython dicts; operations that
can raise become `Except String` values.

Notes on fidelity kept throughout the file:
- `CapabilityType` and `RelationshipType` are `str`-valued enums whose
  members are compared through their string values, so capabilities and
  relationship types are embedded as the underlying strings.
- the dataclass fields `security_score`, `popularity_score`, ... are
  declared `float` with default `0.5`; the defensive
  `hasattr(x, "security_score") and x.security_score is not None`
  guards in the source are therefore always true and the embedding reads
  the field directly.
- message strings built with `f"...{x:.2f}..."` number formatting are
  embedded with the formatted number elided; no claim depends on the
  numeric text of a message.
-/

set_option maxRecDepth 4000

/- The Batteries rational-number operations are marked irreducible, which
blocks `decide` on ground rational facts; the kernel itself reduces them
fine, so reopening them is sound and lets concrete evaluations go through
`decide`. -/
set_option allowUnsafeReducibility true in
attribute [semireducible] Rat.mul Rat.inv Rat.add Rat.sub Rat.div

instance {ε α : Type _} [DecidableEq ε] [DecidableEq α] : DecidableEq (Except ε α)
  | .error e1, .error e2 =>
    if h : e1 = e2 then .isTrue (h ▸ rfl) else .isFalse (fun hc => h (Except.error.inj hc))
  | .error _, .ok _ => .isFalse (fun hc => Except.noConfusion hc)
  | .ok _, .error _ => .isFalse (fun hc => Except.noConfusion hc)
  | .ok a1, .ok a2 =>
    if h : a1 = a2 then .isTrue (h ▸ rfl) else .isFalse (fun hc => h (Except.ok.inj hc))

namespace Loom

/-- Pairs every element of `xs` with every element of `ys`, in the order a
Python nested `for` loop visits them. -/
def listProd (xs : List α) (ys : List β) : List (α × β) :=
  (xs.map (fun x => ys.map (fun y => (x, y)))).flatten

/-- Checks that `needle` is a leading segment of `hay` (over character lists). -/
def charsPre : List Char → List Char → Bool
  | [], _ => true
  | _ :: _, [] => false
  | a :: as, b :: bs => a = b && charsPre as bs

/-- Checks that `needle` occurs contiguously inside `hay` (over character lists). -/
def charsSub : List Char → List Char → Bool
  | n, [] => n.isEmpty
  | n, h :: hs => charsPre n (h :: hs) || charsSub n hs

/-- Python `needle in hay` substring test. -/
def strContains (hay needle : String) : Bool :=
  charsSub needle.toList hay.toList

/-- Python `str.lower()` (the keyword lists in the source are ASCII). -/
def strLower (s : String) : String :=
  String.mk (s.toList.map Char.toLower)

/-- Inserts `x` into a descending-by-`key` list, after all strictly greater
keys and before the first key that is not strictly greater. -/
def insertDescBy (key : α → ℚ) (x : α) : List α → List α
  | [] => [x]
  | y :: ys => if key x < key y then y :: insertDescBy key x ys else x :: y :: ys

/-- Stable descending sort by a rational key: the embedding of Python
`list.sort(key=..., reverse=True)` (Timsort is stable, and every stable
descending sort computes this function). -/
def sortDescBy (key : α → ℚ) : List α → List α
  | [] => []
  | x :: xs => insertDescBy key x (sortDescBy key xs)

/-- Exact-key lookup in an insertion-ordered association list: Python
`dict.get` / `key in dict`. -/
def assocGet [DecidableEq κ] : List (κ × α) → κ → Option α
  | [], _ => none
  | kv :: rest, k => if kv.1 = k then some kv.2 else assocGet rest k

/-- Insert-or-overwrite in an insertion-ordered association list: Python
`dict[k] = v` keeps the original position of an existing key and appends a
new key at the end; `networkx.DiGraph.add_edge` updates the attributes of
an existing edge the same way. -/
def upsert [DecidableEq κ] (m : List (κ × α)) (k : κ) (v : α) : List (κ × α) :=
  match m with
  | [] => [(k, v)]
  | (k0, v0) :: rest => if k0 = k then (k, v) :: rest else (k0, v0) :: upsert rest k v

/-! ## Data model (`core.py`) -/

/-- The dataclass `OSSProject` of `core.py`, scores as exact rationals and
capabilities as the string values of the `CapabilityType` enum members. -/
structure OSSProject where
  name : String
  description : String := ""
  capabilities : List String := []
  github_url : Option String := none
  license : Option String := none
  security_score : ℚ := 1/2
  popularity_score : ℚ := 1/2
  compatibility_tags : List String := []
  cost_score : ℚ := 1/2
  complexity_score : ℚ := 1/2
  maturity_score : ℚ := 1/2
  license_risk_score : ℚ := 1/2
deriving DecidableEq, Repr

/-- Attribute record that `SemanticGraph.add_relationship` stores on a
directed `networkx` edge. -/
structure EdgeData where
  relationship_type : String
  strength : ℚ
  evidence : Option String
deriving DecidableEq, Repr

/-- The pydantic model `Relationship` of `core.py`; `relationship_type`
holds the string value of a `RelationshipType` member. -/
structure Relationship where
  source : String
  target : String
  relationship_type : String
  strength : ℚ := 1
  evidence : Option String := none
deriving DecidableEq, Repr

/-- The string values of the six members of the `RelationshipType` enum in
`core.py`; the enum has no INCOMPATIBLE_WITH member. -/
def relationshipTypeValues : List String :=
  ["uses", "compatible_with", "similar_to", "depends_on", "alternative_to", "extends"]

/-- The pydantic model `Intent` of `core.py` (the free-form `constraints`
dict is read by no code under verification and is omitted). -/
structure Intent where
  description : String
  required_capabilities : List String := []
  priority : String := "medium"
deriving DecidableEq, Repr

/-! ## Read view of the knowledge graph (`graph.py`) -/

/-- Read-only view of `SemanticGraph`: the `projects` dict and the edge set
of the `networkx.DiGraph` (at most one directed edge per ordered pair, as
in `DiGraph`; theorem support for that invariant is proved on `GraphState`
below). -/
structure SemanticGraph where
  projects : List (String × OSSProject) := []
  edges : List ((String × String) × EdgeData) := []
deriving DecidableEq, Repr

/-- Python `self.projects.get(name)` (exact key). -/
def SemanticGraph.getProject (g : SemanticGraph) (name : String) : Option OSSProject :=
  assocGet g.projects name

/-- Attribute dict of the directed edge `u -> v`, when the edge exists. -/
def SemanticGraph.findEdge (g : SemanticGraph) (u v : String) : Option EdgeData :=
  assocGet g.edges (u, v)

/-- Python `graph.has_edge(u, v)`. -/
def SemanticGraph.hasEdge (g : SemanticGraph) (u v : String) : Bool :=
  (g.findEdge u v).isSome

/-- The graph with the directed edge `u -> v` inserted or overwritten, as
`networkx.DiGraph.add_edge` leaves the edge set. -/
def SemanticGraph.withEdge (g : SemanticGraph) (u v : String) (d : EdgeData) : SemanticGraph :=
  { g with edges := upsert g.edges (u, v) d }

/-- Method `find_by_capability` of `graph.py`: names of the projects whose
capability list contains the capability, in dict insertion order. -/
def SemanticGraph.find_by_capability (g : SemanticGraph) (cap : String) : List String :=
  (g.projects.filter (fun kv => kv.2.capabilities.contains cap)).map (fun kv => kv.1)

/-! ## Stateful knowledge graph (`graph.py`): mutation and persistence -/

/-- Full state of a `SemanticGraph` object: in-memory `projects` dict and
edge set plus the persisted `projects.json` content (`none` when the file
is absent). Relationship edges are never written to disk by `_save`. -/
structure GraphState where
  projects : List (String × OSSProject) := []
  edges : List ((String × String) × EdgeData) := []
  persisted : Option (List (String × OSSProject)) := none
deriving DecidableEq, Repr

/-- The read view a query method sees. -/
def GraphState.view (s : GraphState) : SemanticGraph :=
  { projects := s.projects, edges := s.edges }

/-- Method `_save` of `graph.py`: full-snapshot rewrite of `projects.json`
from the in-memory `projects` dict. -/
def GraphState.save (s : GraphState) : GraphState :=
  { s with persisted := some s.projects }

/-- Method `add_project` of `graph.py`: insert or overwrite by name, then
persist. -/
def GraphState.add_project (s : GraphState) (proj : OSSProject) : GraphState :=
  GraphState.save { s with projects := upsert s.projects proj.name proj }

/-- Method `add_relationship` of `graph.py`: exact-name validation of both
endpoints; on failure a warning is printed and nothing changes; on success
the edge attributes are inserted or overwritten and the catalog is
persisted. Returns the new state with the printed messages. -/
def GraphState.add_relationship (s : GraphState) (r : Relationship) :
    GraphState × List String :=
  if (assocGet s.projects r.source).isNone then
    (s, ["Warning: Source project " ++ r.source ++ " not found"])
  else if (assocGet s.projects r.target).isNone then
    (s, ["Warning: Target project " ++ r.target ++ " not found"])
  else
    (GraphState.save
       { s with edges := upsert s.edges (r.source, r.target)
                  ⟨r.relationship_type, r.strength, r.evidence⟩ },
     ["Added relationship: " ++ r.source ++ " -> " ++ r.target])

/-- Method `clear` of `graph.py`: empties the in-memory state and removes
the persisted artifacts. -/
def GraphState.clear (_ : GraphState) : GraphState := {}

/-- States a `SemanticGraph` object can reach: it starts empty (a missing
data file loads to an empty graph, and `_load` only replays `add_project`
on catalog entries) and evolves by `add_project`, `add_relationship` and
`clear`. -/
inductive Reachable : GraphState → Prop
  | empty : Reachable {}
  | add_project (s : GraphState) (proj : OSSProject) :
      Reachable s → Reachable (s.add_project proj)
  | add_relationship (s : GraphState) (r : Relationship) :
      Reachable s → Reachable (s.add_relationship r).1
  | clear (s : GraphState) : Reachable s → Reachable s.clear

/-! ## Pattern and its metrics (`weaver.py`) -/

/-- The `Pattern` class of `weaver.py`. The constructor leaves `complexity`
and `confidence` at `0.0`; `transformation_notes` is an attribute that only
some code paths create, hence an `Option`. -/
structure Pattern where
  name : String
  description : String
  intent : Option Intent := none
  components : List (OSSProject × String) := []
  complexity : ℚ := 0
  confidence : ℚ := 0
  tags : List String := []
  transformation_notes : Option (List String) := none
deriving DecidableEq, Repr

/-- Python `Pattern(name, description, intent)`. -/
def mkPattern (name description : String) (intent : Option Intent) : Pattern :=
  { name := name, description := description, intent := intent }

/-- Method `Pattern.add_component`. -/
def Pattern.add_component (p : Pattern) (proj : OSSProject) (role : String) : Pattern :=
  { p with components := p.components ++ [(proj, role)] }

/-- The ordered pairs of `enumerate`-indexed components that the nested
loops of `calculate_metrics` (and of the auditor compatibility check)
visit. -/
def idxPairs (comps : List (OSSProject × String)) :
    List ((ℕ × (OSSProject × String)) × (ℕ × (OSSProject × String))) :=
  listProd comps.enum comps.enum

/-- Contribution of one ordered index pair to the compatibility term of
`calculate_metrics`: the edge strength when the indices differ and a
`compatible_with` edge joins the two component names. -/
def compatContrib (g : SemanticGraph)
    (pr : (ℕ × (OSSProject × String)) × (ℕ × (OSSProject × String))) : Option ℚ :=
  if pr.1.1 ≠ pr.2.1 then
    match g.findEdge pr.1.2.1.name pr.2.2.1.name with
    | some d => if d.relationship_type = "compatible_with" then some d.strength else none
    | none => none
  else none

/-- Strengths of the compatibility pairs counted by `calculate_metrics`,
in visit order. -/
def compatStrengths (g : SemanticGraph) (comps : List (OSSProject × String)) : List ℚ :=
  (idxPairs comps).filterMap (compatContrib g)

/-- Count of ordered pairs of distinct component names joined by any edge
(the `internal_connections` loop of `calculate_metrics`; note it compares
names, not indices). -/
def internalConnections (g : SemanticGraph) (names : List String) : ℕ :=
  (listProd names names).countP (fun st => decide (st.1 ≠ st.2) && g.hasEdge st.1 st.2)

/-- Method `Pattern.calculate_metrics` of `weaver.py`, returning the
pattern with the two metric fields updated. -/
def Pattern.calculate_metrics (p : Pattern) (g : SemanticGraph) : Pattern :=
  let names := p.components.map (fun c => c.1.name)
  let complexity : ℚ :=
    min 1 ((p.components.length : ℚ) * (1/10) + (internalConnections g names : ℚ) * (1/20))
  if p.components.isEmpty then
    { p with complexity := complexity, confidence := 0 }
  else
    let pop_avg : ℚ :=
      (p.components.map (fun c => c.1.popularity_score)).sum / (p.components.length : ℚ)
    let cl := compatStrengths g p.components
    let avg_compat : ℚ := cl.sum / max 1 (cl.length : ℚ)
    let conf0 : ℚ := pop_avg * (7/10) + avg_compat * (3/10)
    let conf : ℚ :=
      match p.intent with
      | some it =>
        if it.required_capabilities.contains "high_security" then
          let avg_security : ℚ :=
            (p.components.map (fun c => c.1.security_score)).sum / (p.components.length : ℚ)
          min 1 (conf0 + avg_security * (1/5))
        else conf0
      | none => conf0
    { p with complexity := complexity, confidence := conf }

/-! ## Pattern synthesis (`weaver.py`, class `PatternWeaver`) -/

/-- Python `next((p for p in projs if p.name == n), None)`. -/
def findNamed (projs : List OSSProject) (n : String) : Option OSSProject :=
  projs.find? (fun p => p.name = n)

/-- The capability-to-matching-projects dict built by
`_get_matching_projects`: per required capability, the matching projects
sorted by popularity descending; capabilities with no match are dropped.
A duplicated required capability recomputes and dict-assigns the same
value at the same position, so it is skipped. -/
def get_matching_projects (g : SemanticGraph) (intent : Intent) :
    List (String × List OSSProject) :=
  intent.required_capabilities.foldl
    (fun acc cap =>
      let projs := (g.find_by_capability cap).filterMap (fun n => g.getProject n)
      if projs.isEmpty then acc
      else if (assocGet acc cap).isSome then acc
      else acc ++ [(cap, sortDescBy (fun p => p.popularity_score) projs)])
    []

/-- Helper for the optional component additions: add the head of the
matching list for a capability, when the capability matched. -/
def addHeadFor (m : List (String × List OSSProject)) (cap role : String) (p : Pattern) :
    Pattern :=
  match assocGet m cap with
  | some projs =>
    match projs.head? with
    | some pr => p.add_component pr role
    | none => p
  | none => p

/-- Helper: add the project of a given name from the matching list for a
capability, when present. -/
def addNamedFor (m : List (String × List OSSProject)) (cap pname role : String)
    (p : Pattern) : Pattern :=
  match assocGet m cap with
  | some projs =>
    match findNamed projs pname with
    | some pr => p.add_component pr role
    | none => p
  | none => p

/-- Method `_generate_cms_pattern` of `weaver.py`: the list of patterns it
appends to `self.patterns`. -/
def generate_cms_pattern (intent : Intent) (m : List (String × List OSSProject)) :
    List Pattern :=
  match assocGet m "web_framework", assocGet m "database" with
  | some web_projs, some db_projs =>
    let django := findNamed web_projs "Django"
    let fastapi := findNamed web_projs "FastAPI"
    let web_framework := (django.orElse (fun _ => fastapi)).orElse (fun _ => web_projs.head?)
    let database := (findNamed db_projs "PostgreSQL").orElse (fun _ => db_projs.head?)
    match web_framework, database with
    | some wf, some db =>
      let p := mkPattern "Modern Content Management System"
        "Complete CMS with authentication, media storage, and search" (some intent)
      let p := p.add_component wf "CMS Framework"
      let p := p.add_component db "Content Database"
      let p := addHeadFor m "authentication" "Authentication & User Management" p
      let p := addHeadFor m "storage" "Media & File Storage" p
      let p := addHeadFor m "search" "Content Search Engine" p
      let p := addNamedFor m "cache" "Redis" "Content Cache" p
      [{ p with tags := ["cms", "content", "publishing", "media"] }]
    | _, _ => []
  | _, _ => []

/-- Method `_generate_ecommerce_pattern` of `weaver.py`. -/
def generate_ecommerce_pattern (intent : Intent) (m : List (String × List OSSProject)) :
    List Pattern :=
  match assocGet m "web_framework", assocGet m "database" with
  | some _, some _ =>
    let p := mkPattern "E-commerce Platform"
      "Scalable online store with inventory, cart, orders, and payments" (some intent)
    let p := addHeadFor m "web_framework" "Store Frontend & API" p
    let p := addHeadFor m "database" "Product & Order Database" p
    let p := addHeadFor m "cache" "Session & Catalog Cache" p
    let p := addHeadFor m "message_queue" "Order Processing Queue" p
    let p := addHeadFor m "monitoring" "Store Analytics" p
    [{ p with tags := ["ecommerce", "store", "retail", "payments"] }]
  | _, _ => []

/-- Method `_generate_analytics_pattern` of `weaver.py`; note it appends
its pattern unconditionally, possibly with zero components. -/
def generate_analytics_pattern (intent : Intent) (m : List (String × List OSSProject)) :
    List Pattern :=
  let p := mkPattern "Real-time Analytics Dashboard"
    "Data processing pipeline with visualization and monitoring" (some intent)
  let p := addNamedFor m "message_queue" "Kafka" "Data Ingestion Pipeline" p
  let p :=
    match assocGet m "database" with
    | some db_projs =>
      match (findNamed db_projs "MongoDB").orElse (fun _ => db_projs.head?) with
      | some d => p.add_component d "Analytics Data Store"
      | none => p
    | none => p
  let p := addNamedFor m "monitoring" "Grafana" "Dashboard & Visualization" p
  [{ p with tags := ["analytics", "dashboard", "metrics", "visualization"] }]

/-- The fixed capability-to-role table of `_generate_capability_patterns`. -/
def role_map : List (String × String) :=
  [("web_framework", "Application Framework"), ("database", "Data Storage"),
   ("cache", "Cache Layer"), ("message_queue", "Message Queue"),
   ("ai_model", "AI/ML Framework"), ("authentication", "Authentication"),
   ("storage", "File Storage"), ("monitoring", "Monitoring"),
   ("search", "Search Engine"), ("load_balancer", "Load Balancer"),
   ("email", "Email Service"), ("object_storage", "Object Storage"),
   ("payment", "Payment Processor"), ("cdn", "CDN")]

/-- Python `capability.value.replace("_", " ").title()` for the capability
values in use (lowercase ASCII words). -/
def capFallbackRole (cap : String) : String :=
  let spaced := String.mk (cap.toList.map (fun c => if c = '_' then ' ' else c))
  String.intercalate " "
    ((spaced.splitOn " ").map (fun w =>
      match w.toList with
      | [] => ""
      | c :: cs => String.mk (c.toUpper :: cs.map Char.toLower)))

/-- Method `_generate_capability_patterns` of `weaver.py`: the full-stack
pattern (generated only when FastAPI is among the web-framework matches
and PostgreSQL among the database matches) followed by the minimal viable
pattern. -/
def generate_capability_patterns (intent : Intent)
    (m : List (String × List OSSProject)) : List Pattern :=
  let fullStack :=
    match assocGet m "web_framework", assocGet m "database" with
    | some web_projs, some db_projs =>
      match findNamed web_projs "FastAPI", findNamed db_projs "PostgreSQL" with
      | some fastapi, some postgres =>
        let p := mkPattern "Full Stack Python API"
          "Production-ready web API with PostgreSQL database" (some intent)
        let p := p.add_component fastapi "API Framework"
        let p := p.add_component postgres "Primary Database"
        let p := addNamedFor m "cache" "Redis" "Cache & Session Store" p
        let p :=
          match findNamed db_projs "SQLAlchemy" with
          | some sq => p.add_component sq "ORM & Data Layer"
          | none => p
        [{ p with tags := ["production", "python", "api", "database"] }]
      | _, _ => []
    | _, _ => []
  let minimal :=
    let p := mkPattern "Minimal Viable Architecture"
      "Minimal components to satisfy all requirements" (some intent)
    let p := m.foldl
      (fun p capProjs =>
        match capProjs.2 with
        | [] => p
        | pr :: _ =>
          p.add_component pr ((assocGet role_map capProjs.1).getD (capFallbackRole capProjs.1)))
      p
    if p.components.isEmpty then []
    else [{ p with tags := ["minimal", "simple", "beginner"] }]
  fullStack ++ minimal

/-- The fixed keyword families of the domain detection in
`weave_for_intent`, in source order. -/
def cmsKeywords : List String :=
  ["cms", "content management", "content publishing", "blog", "article"]

def ecommerceKeywords : List String :=
  ["e-commerce", "ecommerce", "shop", "store", "cart", "checkout"]

def analyticsKeywords : List String :=
  ["analytics", "dashboard", "metrics", "reporting", "visualization"]

/-- Method `PatternWeaver.weave_for_intent` of `weaver.py`: empty result
when nothing matches; first-match-wins domain detection; the capability
patterns always appended afterwards; finally a stable sort by the
patterns' `confidence` fields, descending. -/
def weave_for_intent (g : SemanticGraph) (intent : Intent) : List Pattern :=
  let m := get_matching_projects g intent
  if m.isEmpty then []
  else
    let il := strLower intent.description
    let domain :=
      if cmsKeywords.any (fun k => strContains il k) then generate_cms_pattern intent m
      else if ecommerceKeywords.any (fun k => strContains il k) then
        generate_ecommerce_pattern intent m
      else if analyticsKeywords.any (fun k => strContains il k) then
        generate_analytics_pattern intent m
      else []
    sortDescBy (fun p => p.confidence) (domain ++ generate_capability_patterns intent m)

/-! ## Pattern evolution (`evolver.py`), security path and persistence -/

/-- The fixed upgrade table of `_suggest_security_upgrade`. -/
def security_upgrades : List (String × String) :=
  [("FastAPI", "Django"), ("MySQL", "PostgreSQL"), ("RabbitMQ", "Apache_Kafka")]

/-- Method `_suggest_security_upgrade` of `evolver.py`: a table target is
suggested only when present in the catalog and strictly more secure. -/
def suggest_security_upgrade (g : SemanticGraph) (proj : OSSProject) : Option OSSProject :=
  match assocGet security_upgrades proj.name with
  | some upName =>
    match g.getProject upName with
    | some up => if up.security_score > proj.security_score then some up else none
    | none => none
  | none => none

/-- Method `_has_component_with_capability` of `evolver.py`. -/
def has_component_with_capability (p : Pattern) (cap : String) : Bool :=
  p.components.any (fun c => c.1.capabilities.contains cap)

/-- Method `_has_component_by_name` of `evolver.py`. -/
def has_component_by_name (p : Pattern) (n : String) : Bool :=
  p.components.any (fun c => c.1.name = n)

/-- One iteration of the component-copying loop of `_add_security`: the
component kept or upgraded, with the note it contributes (a dataclass `!=`
compares fields, hence the structural inequality test). -/
def securityCopyStep (g : SemanticGraph) (c : OSSProject × String) :
    (OSSProject × String) × List String :=
  match suggest_security_upgrade g c.1 with
  | some up =>
    if up ≠ c.1 then
      ((up, c.2 ++ " (Security Enhanced)"),
       ["Upgraded " ++ c.1.name ++ " to " ++ up.name ++ " for security"])
    else (c, [])
  | none => (c, [])

/-- The component list of the evolved pattern after the copying loop of
`_add_security`, before any components are added. -/
def securityCopy (g : SemanticGraph) (comps : List (OSSProject × String)) :
    List (OSSProject × String) :=
  comps.map (fun c => (securityCopyStep g c).1)

/-- Method `_add_missing_security_components` of `evolver.py`: conditions
are evaluated on the original pattern, additions applied to the evolved
one. -/
def add_missing_security_components (g : SemanticGraph) (evolved original : Pattern) :
    Pattern × List String :=
  let st1 :=
    if has_component_with_capability original "authentication" then (evolved, ([] : List String))
    else
      let best :=
        match g.getProject "Keycloak", g.getProject "Ory_Kratos" with
        | some k, some o => some (if k.security_score ≥ o.security_score then k else o)
        | some k, none => some k
        | none, some o => some o
        | none, none => none
      match best with
      | some b =>
        (evolved.add_component b "Authentication & Identity Management",
         ["Added " ++ b.name ++ " for authentication"])
      | none => (evolved, [])
  let st2 :=
    if has_component_with_capability original "web_framework" ∧
       ¬ has_component_with_capability original "monitoring" then
      let stP :=
        match g.getProject "Prometheus" with
        | some pm =>
          (st1.1.add_component pm "Security Monitoring & Metrics",
           ["Added " ++ pm.name ++ " for security monitoring"])
        | none => (st1.1, [])
      match g.getProject "Grafana" with
      | some gf =>
        (stP.1.add_component gf "Security Dashboard & Visualization",
         stP.2 ++ ["Added " ++ gf.name ++ " for security visualization"])
      | none => stP
    else (st1.1, [])
  (st2.1, st1.2 ++ st2.2)

/-- Method `_calculate_pattern_security_score` of `evolver.py`: mean
component security score, `0.0` for an empty pattern. -/
def calculate_pattern_security_score (p : Pattern) : ℚ :=
  if p.components.isEmpty then 0
  else (p.components.map (fun c => c.1.security_score)).sum / (p.components.length : ℚ)

/-- Method `_add_security` of `evolver.py` (the `evolve(P, "add-security")`
branch): upgrade pass over the copied components, addition of missing
security components, score-delta note, description/notes/tags update. -/
def add_security (g : SemanticGraph) (p : Pattern) : Pattern :=
  let base := mkPattern (p.name ++ " (Secure)")
    (p.description ++ " - Enhanced for security") p.intent
  let copied := p.components.map (securityCopyStep g)
  let evolved0 := { base with components := copied.map (fun x => x.1) }
  let notes0 := (copied.map (fun x => x.2)).flatten
  let st := add_missing_security_components g evolved0 p
  let improvements0 := notes0 ++ st.2
  let original_score := calculate_pattern_security_score p
  let new_score := calculate_pattern_security_score st.1
  let improvements :=
    if new_score - original_score > 0 then improvements0 ++ ["Security score improved"]
    else improvements0
  let evolved2 :=
    if improvements.isEmpty then st.1
    else
      { st.1 with
        description := st.1.description ++ ". Security enhancements: " ++
          String.intercalate ", " (improvements.take 3),
        transformation_notes :=
          some ((st.1.transformation_notes.getD []) ++ improvements) }
  { evolved2 with tags := p.tags ++ ["secure", "evolved", "high_security"] }

/-- One entry of the `components` list of the pattern exchange file. -/
structure PatternFileComponent where
  name : String
  role : String
  capabilities : List String
deriving DecidableEq, Repr

/-- The JSON object written by `save_pattern` and read by `load_pattern`. -/
structure PatternFile where
  name : String
  description : String
  components : List PatternFileComponent
  tags : List String
  evolution_notes : List String
deriving DecidableEq, Repr

/-- Method `save_pattern` of `evolver.py` (the dict it serializes; the
`Pattern` constructor always sets `tags`, and `getattr(pattern,
"transformation_notes", [])` defaults the notes). -/
def save_pattern (p : Pattern) : PatternFile :=
  { name := p.name, description := p.description,
    components := p.components.map (fun c => ⟨c.1.name, c.2, c.1.capabilities⟩),
    tags := p.tags,
    evolution_notes := p.transformation_notes.getD [] }

/-- Method `load_pattern` of `evolver.py`. After building the empty
`Pattern`, the component loop calls `self._get_projects(project_name)`, a
method that does not exist on `PatternEvolver` (the resolver is named
`_get_project`), so Python raises `AttributeError` on the first component;
only a component-free file loads. -/
def load_pattern (_g : SemanticGraph) (f : PatternFile) : Except String Pattern :=
  match f.components with
  | [] => .ok (mkPattern f.name f.description none)
  | _ :: _ => .error "AttributeError: _get_projects"

/-! ## Pattern audit (`auditor.py`) -/

/-- The `AuditSeverity` enum. -/
inductive AuditSeverity
  | info
  | warning
  | error
  | critical
deriving DecidableEq, Repr

/-- The `AuditCategory` enum. -/
inductive AuditCategory
  | compatibility
  | license
  | security
  | redundancy
  | best_practice
  | performance
deriving DecidableEq, Repr

/-- The dataclass `AuditFinding`. -/
structure AuditFinding where
  category : AuditCategory
  severity : AuditSeverity
  component : Option String
  message : String
  recommendation : Option String
  evidence : Option String := none
deriving DecidableEq, Repr

/-- The pair loop of `_check_compatibility`: a warning for a weak
`compatible_with` edge; reaching the `elif` arm for an edge of any other
type evaluates `RelationshipType.INCOMPATIBLE_WITH`, a member the enum
does not have, so Python raises `AttributeError` there. -/
def check_compatibility_go (g : SemanticGraph) :
    List ((ℕ × (OSSProject × String)) × (ℕ × (OSSProject × String))) →
    List AuditFinding → Except String (List AuditFinding)
  | [], acc => .ok acc
  | pr :: rest, acc =>
    if pr.1.1 ≠ pr.2.1 then
      match g.findEdge pr.1.2.1.name pr.2.2.1.name with
      | some d =>
        if d.relationship_type = "compatible_with" then
          if d.strength < 7/10 then
            check_compatibility_go g rest (acc ++
              [⟨AuditCategory.compatibility, AuditSeverity.warning,
                some (pr.1.2.1.name ++ " <-> " ++ pr.2.2.1.name),
                "Low compatibility confidence between " ++ pr.1.2.1.name ++
                  " and " ++ pr.2.2.1.name,
                some "Consider alternative pairings or verify integration",
                d.evidence⟩])
          else check_compatibility_go g rest acc
        else .error "AttributeError: INCOMPATIBLE_WITH"
      | none => check_compatibility_go g rest acc
    else check_compatibility_go g rest acc

/-- Method `_check_compatibility` of `auditor.py`. -/
def check_compatibility (g : SemanticGraph) (p : Pattern) :
    Except String (List AuditFinding) :=
  check_compatibility_go g (idxPairs p.components) []

/-- The license-to-component-names dict built by `_check_licenses`
(components without a license are skipped). -/
def licenseGroups (p : Pattern) : List (String × List String) :=
  p.components.foldl
    (fun acc c =>
      match c.1.license with
      | some lic =>
        match assocGet acc lic with
        | some names => upsert acc lic (names ++ [c.1.name])
        | none => acc ++ [(lic, [c.1.name])]
      | none => acc)
    []

/-- The fixed restrictive-license list shared by `_check_licenses` and
`_calculate_pattern_cost_score`. -/
def restrictive_licenses : List String :=
  ["SSPL", "Elastic License", "Commons Clause", "AGPL"]

/-- Method `_check_licenses` of `auditor.py`. -/
def check_licenses (p : Pattern) : List AuditFinding :=
  let licenses := licenseGroups p
  let restrictiveFindings := licenses.filterMap (fun lp =>
    if restrictive_licenses.contains lp.1 then
      some ⟨AuditCategory.license, AuditSeverity.warning,
        some (String.intercalate ", " lp.2),
        "Restrictive license detected: " ++ lp.1,
        some "Consider open source alternatives with permissive licenses",
        some ("Affects: " ++ String.intercalate ", " lp.2)⟩
    else none)
  let has_gpl := licenses.any (fun lp => strContains lp.1 "GPL")
  let has_pc := licenses.any (fun lp => ["MIT", "BSD", "Apache 2.0"].contains lp.1)
  let gplFindings :=
    if has_gpl ∧ has_pc ∧ licenses.length > 1 then
      [⟨AuditCategory.license, AuditSeverity.warning, some "Multiple components",
        "Potential GPL license contamination risk",
        some "Review license compatibility or isolate GPL components",
        some ("Mixed licenses: " ++ String.intercalate ", " (licenses.map (fun lp => lp.1)))⟩]
    else []
  restrictiveFindings ++ gplFindings

/-- Method `_check_security` of `auditor.py` (every component carries a
float security score, so the score list is empty exactly when the pattern
is; the missing-authentication check sits inside the nonempty branch). -/
def check_security (p : Pattern) : List AuditFinding :=
  let scores := p.components.map (fun c => c.1.security_score)
  let lows := p.components.filterMap (fun c =>
    if c.1.security_score < 7/10 then some c.1.name else none)
  if scores.isEmpty then []
  else
    let avg := scores.sum / (scores.length : ℚ)
    let avgFindings :=
      if avg < 3/4 then
        [⟨AuditCategory.security, AuditSeverity.warning, some "Pattern average",
          "Low average security score",
          some "Consider higher-security alternatives or add security components",
          some ("Components: " ++
            (if lows.isEmpty then "All components" else String.intercalate ", " lows))⟩]
      else []
    let has_auth := p.components.any (fun c => c.1.capabilities.contains "authentication")
    let has_web := p.components.any (fun c => c.1.capabilities.contains "web_framework")
    let authFindings :=
      if ¬ has_auth ∧ has_web then
        [⟨AuditCategory.security, AuditSeverity.error, some "Authentication",
          "Missing authentication component in web application",
          some "Add authentication service (Keycloak, Ory Kratos, etc.)",
          some "Web framework present without authentication"⟩]
      else []
    avgFindings ++ authFindings

/-- The capability-to-provider-names dict built by `_check_redundancy`. -/
def capabilityCounts (p : Pattern) : List (String × List String) :=
  p.components.foldl
    (fun acc c =>
      c.1.capabilities.foldl
        (fun acc cap =>
          match assocGet acc cap with
          | some names => upsert acc cap (names ++ [c.1.name])
          | none => acc ++ [(cap, [c.1.name])])
        acc)
    []

/-- Method `_check_redundancy` of `auditor.py`. -/
def check_redundancy (p : Pattern) : List AuditFinding :=
  let counts := capabilityCounts p
  let dupFindings := counts.filterMap (fun cp =>
    if cp.2.length > 1 ∧ ¬ (["database", "cache"].contains cp.1) then
      some ⟨AuditCategory.redundancy, AuditSeverity.warning,
        some (String.intercalate ", " cp.2),
        "Multiple components providing same capability: " ++ cp.1,
        some ("Consider consolidating " ++ cp.1 ++ " functionality"),
        some ("Provided by: " ++ String.intercalate ", " cp.2)⟩
    else none)
  let dbFindings :=
    match assocGet counts "database" with
    | some dbs =>
      if dbs.length > 1 then
        [⟨AuditCategory.redundancy, AuditSeverity.info,
          some (String.intercalate ", " dbs), "Multiple databases detected",
          some "Ensure multiple databases are intentional (e.g., polyglot persistence)",
          some ("Databases: " ++ String.intercalate ", " dbs)⟩]
      else []
    | none => []
  dupFindings ++ dbFindings

/-- Method `_check_best_practices` of `auditor.py`. -/
def check_best_practices (p : Pattern) : List AuditFinding :=
  let names := p.components.map (fun c => c.1.name)
  let has_db := p.components.any (fun c => c.1.capabilities.contains "database")
  let has_cache := p.components.any (fun c => c.1.capabilities.contains "cache")
  let cacheFindings :=
    if has_db ∧ ¬ has_cache ∧ names.length ≥ 3 then
      [⟨AuditCategory.best_practice, AuditSeverity.info, some "Database layer",
        "Database present without caching layer",
        some "Consider adding Redis for caching to improve performance",
        some "Database components present"⟩]
    else []
  let has_monitoring := p.components.any (fun c => c.1.capabilities.contains "monitoring")
  let monitoringFindings :=
    if ¬ has_monitoring ∧ names.length ≥ 3 then
      [⟨AuditCategory.best_practice, AuditSeverity.info, some "Operations",
        "No monitoring/observability components",
        some "Add monitoring (Prometheus) and visualization (Grafana)",
        some ("Current components: " ++ String.intercalate ", " names)⟩]
    else []
  cacheFindings ++ monitoringFindings

/-- Method `audit_pattern` of `auditor.py`: the five checks in source
order; an exception in the compatibility check aborts the audit. -/
def audit_pattern (g : SemanticGraph) (p : Pattern) : Except String (List AuditFinding) :=
  match check_compatibility g p with
  | .ok cf =>
    .ok (cf ++ check_licenses p ++ check_security p ++ check_redundancy p ++
      check_best_practices p)
  | .error e => .error e

/-! ## Concrete catalog fixtures used by counterexamples and witnesses -/

/-- Catalog entry fixture: a web framework with no authentication. -/
def pFlask : OSSProject :=
  { name := "Flask", capabilities := ["web_framework"], security_score := 6/10,
    license := some "BSD" }

/-- Single-component pattern over the `pFlask` fixture. -/
def pat1 : Pattern := { name := "P1", description := "d", components := [(pFlask, "API")] }

/-- Catalog holding the `pFlask` fixture, so every component reference of
`pat1` resolves. -/
def gC1 : SemanticGraph := { projects := [("Flask", pFlask)] }

/-- Weaver fixture: an unpopular FastAPI, a popular Django, PostgreSQL. -/
def pFastAPI : OSSProject :=
  { name := "FastAPI", capabilities := ["web_framework"], popularity_score := 1/10 }

def pDjango : OSSProject :=
  { name := "Django", capabilities := ["web_framework"], popularity_score := 9/10 }

def pPostgres : OSSProject :=
  { name := "PostgreSQL", capabilities := ["database"], popularity_score := 1/10 }

def gC2 : SemanticGraph :=
  { projects := [("FastAPI", pFastAPI), ("Django", pDjango), ("PostgreSQL", pPostgres)] }

def intentC2 : Intent :=
  { description := "", required_capabilities := ["web_framework", "database"] }

/-- Minimal components for edge fixtures. -/
def cA : OSSProject := { name := "A", popularity_score := 1/2 }

def cB : OSSProject := { name := "B", popularity_score := 1/2 }

def cC : OSSProject := { name := "C", popularity_score := 1/2 }

/-- Auditor fixture: the two pattern components are joined by a `uses`
edge. -/
def gC3 : SemanticGraph :=
  { projects := [("A", cA), ("B", cB)], edges := [(("A", "B"), ⟨"uses", 9/10, none⟩)] }

/-- Auditor fixture: the same components joined by a weak
`compatible_with` edge. -/
def gC3b : SemanticGraph :=
  { projects := [("A", cA), ("B", cB)],
    edges := [(("A", "B"), ⟨"compatible_with", 1/2, none⟩)] }

def patC3 : Pattern :=
  { name := "P", description := "", components := [(cA, "r1"), (cB, "r2")] }

/-- Monotonicity fixture: two strong compatible edges already present. -/
def gC4 : SemanticGraph :=
  { projects := [("A", cA), ("B", cB), ("C", cC)],
    edges := [(("A", "B"), ⟨"compatible_with", 1, none⟩),
              (("B", "A"), ⟨"compatible_with", 1, none⟩)] }

def patC4 : Pattern :=
  { name := "P", description := "", components := [(cA, "r1"), (cB, "r2"), (cC, "r3")] }

/-- Evolver fixture: a high-security database and a mid-security
authentication provider. -/
def pPg5 : OSSProject :=
  { name := "PostgreSQL", capabilities := ["database"], security_score := 95/100 }

def pKc5 : OSSProject :=
  { name := "Keycloak", capabilities := ["authentication"], security_score := 1/2 }

def gC5 : SemanticGraph := { projects := [("PostgreSQL", pPg5), ("Keycloak", pKc5)] }

def patC5 : Pattern := { name := "P", description := "", components := [(pPg5, "Database")] }

/-- Full-stack fallback fixture: web and database matches exist, but
neither FastAPI nor PostgreSQL is among them. -/
def pDjango6 : OSSProject :=
  { name := "Django", capabilities := ["web_framework"], popularity_score := 8/10 }

def pMongo6 : OSSProject :=
  { name := "MongoDB", capabilities := ["database"], popularity_score := 7/10 }

def gC6 : SemanticGraph := { projects := [("Django", pDjango6), ("MongoDB", pMongo6)] }

def intentC6 : Intent :=
  { description := "", required_capabilities := ["web_framework", "database"] }

/-- The average compatibility-edge strength term of `calculate_metrics`
(the divide-by-zero guard is the `max 1`). -/
def avgCompat (g : SemanticGraph) (comps : List (OSSProject × String)) : ℚ :=
  (compatStrengths g comps).sum / max 1 ((compatStrengths g comps).length : ℚ)

/-- Index pairs whose component names form the given ordered pair: the
pairs that start counting toward the compatibility term once an edge is
added between those names. -/
def newPairFlag (u v : String)
    (x : (ℕ × (OSSProject × String)) × (ℕ × (OSSProject × String))) : Bool :=
  decide (x.1.1 ≠ x.2.1) && decide ((x.1.2.1.name, x.2.2.1.name) = (u, v))

/-- Graph-state fixture with two projects. -/
def sC9 : GraphState := (GraphState.add_project {} cA).add_project cB

/-- Relationship fixture between the two fixture projects. -/
def rC9 : Relationship := { source := "A", target := "B", relationship_type := "uses" }

/-- Relationship fixture with an endpoint that is not in the catalog. -/
def rC9bad : Relationship := { source := "A", target := "Z", relationship_type := "uses" }

/-- Reachable graph-state fixture carrying one `uses` edge. -/
def sC10 : GraphState := (sC9.add_relationship rC9).1

/-- Relationship fixture that retypes the existing edge of `sC10`. -/
def rC10 : Relationship :=
  { source := "A", target := "B", relationship_type := "compatible_with", strength := 1/2 }

/-! ## Theorems for the claims -/

/-- C1: saving a fully-resolvable one-component pattern and reloading the
file raises `AttributeError` instead of round-tripping: `load_pattern`
calls the nonexistent method `_get_projects` for every component entry. -/
theorem save_load_roundTrip_raises :
    pat1.components.map (fun c => (c.1.name, c.2)) = [("Flask", "API")] ∧
    (save_pattern pat1).components.all (fun c => (gC1.getProject c.name).isSome) = true ∧
    load_pattern gC1 (save_pattern pat1) = .error "AttributeError: _get_projects" := by
  decide

/-- C2: `weave_for_intent` never calls `calculate_metrics` before
appending, so every returned pattern still carries confidence `0.0` and
the final sort is vacuous: on this catalog the returned order is the
generation order `[full stack, minimal]` although the step-5 formulas give
the full-stack pattern confidence `7/100` and the minimal pattern `7/20`,
so the list is not sorted by descending computed confidence. -/
theorem weave_ranking_bug :
    (weave_for_intent gC2 intentC2).map Pattern.name =
      ["Full Stack Python API", "Minimal Viable Architecture"] ∧
    (weave_for_intent gC2 intentC2).map Pattern.confidence = [0, 0] ∧
    (weave_for_intent gC2 intentC2).map
      (fun p => (p.calculate_metrics gC2).confidence) = [7/100, 7/20] ∧
    (7/100 : ℚ) < 7/20 := by
  decide

/-- C3: a `compatible_with` edge of strength `0.5` between pattern
components does produce exactly one compatibility warning, but an edge of
any other relationship type (here `uses`, a legal member value) makes
`_check_compatibility` evaluate the nonexistent enum member
`RelationshipType.INCOMPATIBLE_WITH`, so the whole audit raises
`AttributeError` instead of producing no compatibility finding. -/
theorem audit_incompatible_member_missing :
    gC3.findEdge "A" "B" = some ⟨"uses", 9/10, none⟩ ∧
    "uses" ∈ relationshipTypeValues ∧
    audit_pattern gC3 patC3 = .error "AttributeError: INCOMPATIBLE_WITH" ∧
    (audit_pattern gC3b patC3).toOption.map
      (fun l => (l.filter (fun f => f.category = AuditCategory.compatibility)).map
        (fun f => f.severity)) = some [AuditSeverity.warning] := by
  decide

/-- C4 counterexample: `patC4` has three components with two
`compatible_with` edges of strength `1.0` between them; adding a fresh
`compatible_with` edge of strength exactly `0.7` (within the claimed
threshold) drags the average compatibility strength from `1` down to
`0.9`, so the confidence drops from `13/20` to `31/50`. -/
theorem confidence_monotonicity_cex :
    2 ≤ patC4.components.length ∧
    "A" ∈ patC4.components.map (fun c => c.1.name) ∧
    "C" ∈ patC4.components.map (fun c => c.1.name) ∧
    gC4.findEdge "A" "C" = none ∧
    (patC4.calculate_metrics (gC4.withEdge "A" "C" ⟨"compatible_with", 7/10, none⟩)).confidence
      < (patC4.calculate_metrics gC4).confidence := by
  decide

/-- C5 counterexample: evolving the one-component pattern
`[PostgreSQL (0.95)]` with add-security applies the
authentication-addition rule (Keycloak, security `0.5`), and the mean
component security score drops from `0.95` to `0.725`. -/
theorem add_security_mean_decreases_cex :
    (add_security gC5 patC5).components.map (fun c => c.1.name) =
      ["PostgreSQL", "Keycloak"] ∧
    calculate_pattern_security_score (add_security gC5 patC5)
      < calculate_pattern_security_score patC5 := by
  decide

/-- C6 counterexample: the capability matches contain a web framework
(Django) and a database (MongoDB), yet no full-stack pattern is generated
because the source requires the literal FastAPI + PostgreSQL pair and has
no popularity fallback; only the minimal viable pattern is produced. -/
theorem full_stack_no_fallback_cex :
    (assocGet (get_matching_projects gC6 intentC6) "web_framework").isSome = true ∧
    (assocGet (get_matching_projects gC6 intentC6) "database").isSome = true ∧
    (weave_for_intent gC6 intentC6).map Pattern.name = ["Minimal Viable Architecture"] := by
  decide

/-! ### Association-list lemmas -/

theorem assocGet_upsert_self [DecidableEq κ] (m : List (κ × α)) (k : κ) (v : α) :
    assocGet (upsert m k v) k = some v := by
  induction m with
  | nil => simp [upsert, assocGet]
  | cons kv rest ih =>
    by_cases h : kv.1 = k
    · simp [upsert, h, assocGet]
    · simp [upsert, h, assocGet, ih]

theorem assocGet_upsert_ne [DecidableEq κ] (m : List (κ × α)) (k k' : κ) (v : α)
    (h : k' ≠ k) : assocGet (upsert m k v) k' = assocGet m k' := by
  have h2 : ¬ (k = k') := fun hc => h hc.symm
  induction m with
  | nil => simp [upsert, assocGet, h2]
  | cons kv rest ih =>
    by_cases hk : kv.1 = k
    · simp [upsert, hk, assocGet, h2]
    · simp [upsert, hk, assocGet, ih]

theorem mem_keys_of_assocGet_isSome [DecidableEq κ] (m : List (κ × α)) (k : κ) :
    (assocGet m k).isSome = true ↔ k ∈ m.map Prod.fst := by
  induction m with
  | nil => simp [assocGet]
  | cons kv rest ih =>
    by_cases h : kv.1 = k
    · simp only [assocGet]
      rw [if_pos h]
      simp [h.symm]
    · simp only [assocGet]
      rw [if_neg h, ih]
      simp only [List.map_cons, List.mem_cons]
      constructor
      · exact fun hm => Or.inr hm
      · rintro (hc | hm)
        · exact absurd hc.symm h
        · exact hm

theorem upsert_keys [DecidableEq κ] (m : List (κ × α)) (k : κ) (v : α) :
    (upsert m k v).map Prod.fst =
      if (assocGet m k).isSome then m.map Prod.fst else m.map Prod.fst ++ [k] := by
  induction m with
  | nil => simp [upsert, assocGet]
  | cons kv rest ih =>
    by_cases h : kv.1 = k
    · simp only [upsert]
      rw [if_pos h]
      simp [assocGet, h]
    · simp only [upsert]
      rw [if_neg h]
      simp only [List.map_cons, ih, assocGet]
      have h3 : (if kv.1 = k then some kv.2 else assocGet rest k) = assocGet rest k := if_neg h
      rw [h3]
      split <;> simp

/-! ### C9 and C10: graph mutation -/

/-- C9: when an endpoint of the relationship is not a catalog key,
`add_relationship` returns the state unchanged (in-memory maps and
persisted catalog alike) and prints one of the two not-found warnings;
when both endpoints exist it leaves `projects` unchanged, stores exactly
the relationship's type, strength and evidence on the ordered pair,
touches no other pair, and persists the catalog snapshot. -/
theorem add_relationship_atomic (s : GraphState) (r : Relationship) :
    ((assocGet s.projects r.source = none ∨ assocGet s.projects r.target = none) →
      (s.add_relationship r).1 = s ∧
      ((s.add_relationship r).2 = ["Warning: Source project " ++ r.source ++ " not found"] ∨
       (s.add_relationship r).2 = ["Warning: Target project " ++ r.target ++ " not found"])) ∧
    (∀ ps pt, assocGet s.projects r.source = some ps →
      assocGet s.projects r.target = some pt →
      (s.add_relationship r).1.projects = s.projects ∧
      assocGet (s.add_relationship r).1.edges (r.source, r.target) =
        some ⟨r.relationship_type, r.strength, r.evidence⟩ ∧
      (∀ k, k ≠ (r.source, r.target) →
        assocGet (s.add_relationship r).1.edges k = assocGet s.edges k) ∧
      (s.add_relationship r).1.persisted = some s.projects) := by
  constructor
  · intro hmiss
    unfold GraphState.add_relationship
    rcases hmiss with hs | ht
    · simp [hs]
    · cases hsrc : assocGet s.projects r.source with
      | none => simp [hsrc]
      | some ps => simp [hsrc, ht]
  · intro ps pt hs ht
    unfold GraphState.add_relationship
    simp only [hs, ht, Option.isNone_some, Bool.false_eq_true, if_false]
    refine ⟨rfl, ?_, ?_, rfl⟩
    · exact assocGet_upsert_self _ _ _
    · intro k hk
      exact assocGet_upsert_ne _ _ _ _ hk

/-- C9 witness: on the two-project fixture state, the failing call leaves
the state unchanged and the successful call stores the edge and persists
the catalog. -/
theorem add_relationship_atomic_witness :
    (sC9.add_relationship rC9bad).1 = sC9 ∧
    assocGet (sC9.add_relationship rC9).1.edges ("A", "B") =
      some ⟨"uses", 1, none⟩ ∧
    (sC9.add_relationship rC9).1.persisted = some sC9.projects := by
  refine ⟨((add_relationship_atomic sC9 rC9bad).1 (Or.inr (by decide))).1, ?_, ?_⟩
  · exact ((add_relationship_atomic sC9 rC9).2 cA cB (by decide) (by decide)).2.1
  · exact ((add_relationship_atomic sC9 rC9).2 cA cB (by decide) (by decide)).2.2.2

/-- C10: in every reachable graph state the edge list has pairwise
distinct ordered key pairs (a `networkx.DiGraph` stores at most one edge
per ordered pair), and re-adding a relationship for an ordered pair
replaces the stored type, strength and evidence without creating a second
edge: the key multiset is unchanged when the pair already had an edge,
extended by exactly that pair otherwise. -/
theorem single_edge_per_ordered_pair (s : GraphState) (h : Reachable s) :
    ((s.edges.map Prod.fst).Nodup) ∧
    (∀ r ps pt, assocGet s.projects r.source = some ps →
      assocGet s.projects r.target = some pt →
      assocGet (s.add_relationship r).1.edges (r.source, r.target) =
        some ⟨r.relationship_type, r.strength, r.evidence⟩ ∧
      (s.add_relationship r).1.edges.map Prod.fst =
        (if (assocGet s.edges (r.source, r.target)).isSome then s.edges.map Prod.fst
         else s.edges.map Prod.fst ++ [(r.source, r.target)])) := by
  constructor
  · induction h with
    | empty => simp [GraphState.edges]
    | add_project s proj _ ih => exact ih
    | add_relationship s r _ ih =>
      unfold GraphState.add_relationship
      cases hsrc : (assocGet s.projects r.source).isNone with
      | true => simpa [hsrc] using ih
      | false =>
        cases htgt : (assocGet s.projects r.target).isNone with
        | true => simpa [hsrc, htgt] using ih
        | false =>
          simp only [hsrc, htgt, Bool.false_eq_true, if_false, GraphState.save]
          rw [upsert_keys]
          split
          · exact ih
          · next hmem =>
            rw [List.nodup_append]
            refine ⟨ih, List.nodup_singleton _, ?_⟩
            intro a ha hb
            rw [List.mem_singleton] at hb
            subst hb
            rw [← mem_keys_of_assocGet_isSome] at ha
            simp_all
    | clear s _ _ => simp [GraphState.clear, GraphState.edges]
  · intro r ps pt hs ht
    unfold GraphState.add_relationship
    simp only [hs, ht, Option.isNone_some, Bool.false_eq_true, if_false]
    exact ⟨assocGet_upsert_self _ _ _, upsert_keys _ _ _⟩

/-- C10 witness: the fixture state reached by two `add_project` calls and
one `add_relationship` call has duplicate-free edge keys, and retyping the
existing edge to `compatible_with` overwrites it in place. -/
theorem single_edge_per_ordered_pair_witness :
    ((sC10.edges.map Prod.fst).Nodup) ∧
    assocGet (sC10.add_relationship rC10).1.edges ("A", "B") =
      some ⟨"compatible_with", 1/2, none⟩ ∧
    (sC10.add_relationship rC10).1.edges.map Prod.fst = sC10.edges.map Prod.fst := by
  have h := single_edge_per_ordered_pair sC10
    (Reachable.add_relationship _ _
      (Reachable.add_project _ _ (Reachable.add_project _ _ Reachable.empty)))
  refine ⟨h.1, ?_, ?_⟩
  · exact (h.2 rC10 cA cB (by decide) (by decide)).1
  · have h2 := (h.2 rC10 cA cB (by decide) (by decide)).2
    rwa [if_pos (by decide)] at h2

/-! ### C7: metric bounds -/

theorem mem_of_assocGet_eq_some [DecidableEq κ] {m : List (κ × α)} {k : κ} {v : α}
    (h : assocGet m k = some v) : (k, v) ∈ m := by
  induction m with
  | nil => simp [assocGet] at h
  | cons kv rest ih =>
    simp only [assocGet] at h
    split at h
    · next heq =>
      obtain ⟨k0, v0⟩ := kv
      injection h with hv
      subst hv
      simp only at heq
      subst heq
      exact List.mem_cons_self _ _
    · exact List.mem_cons_of_mem _ (ih h)

theorem compatStrengths_mem_bounds (g : SemanticGraph) (comps : List (OSSProject × String))
    (hstr : ∀ e ∈ g.edges, 0 ≤ e.2.strength ∧ e.2.strength ≤ 1) :
    ∀ q ∈ compatStrengths g comps, 0 ≤ q ∧ q ≤ 1 := by
  intro q hq
  unfold compatStrengths at hq
  rw [List.mem_filterMap] at hq
  obtain ⟨pr, _, hc⟩ := hq
  unfold compatContrib at hc
  split at hc
  · cases hfe : SemanticGraph.findEdge g pr.1.2.1.name pr.2.2.1.name with
    | none => rw [hfe] at hc; simp at hc
    | some d =>
      rw [hfe] at hc
      dsimp only at hc
      split at hc
      · injection hc with hq2
        subst hq2
        exact hstr _ (mem_of_assocGet_eq_some hfe)
      · simp at hc
  · simp at hc

theorem sum_map_le_length (l : List ℚ) (h : ∀ q ∈ l, q ≤ 1) : l.sum ≤ (l.length : ℚ) := by
  have := List.sum_le_card_nsmul l 1 h
  simpa using this

/-- C7: with all component scores and edge strengths in the unit
interval, `calculate_metrics` produces a confidence and a complexity in
the unit interval, and both metrics are `0` for a component-free pattern
(the `max(1, compat_pairs)` guard keeps the compatibility term total). -/
theorem calculate_metrics_bounds (g : SemanticGraph) (p : Pattern)
    (hpop : ∀ c ∈ p.components, 0 ≤ c.1.popularity_score ∧ c.1.popularity_score ≤ 1)
    (hsec : ∀ c ∈ p.components, 0 ≤ c.1.security_score ∧ c.1.security_score ≤ 1)
    (hstr : ∀ e ∈ g.edges, 0 ≤ e.2.strength ∧ e.2.strength ≤ 1) :
    (0 ≤ (p.calculate_metrics g).confidence ∧ (p.calculate_metrics g).confidence ≤ 1) ∧
    (0 ≤ (p.calculate_metrics g).complexity ∧ (p.calculate_metrics g).complexity ≤ 1) ∧
    (p.components = [] →
      (p.calculate_metrics g).confidence = 0 ∧ (p.calculate_metrics g).complexity = 0) := by
  have hcx : (p.calculate_metrics g).complexity =
      min 1 ((p.components.length : ℚ) * (1/10) +
        (internalConnections g (p.components.map (fun c => c.1.name)) : ℚ) * (1/20)) := by
    unfold Pattern.calculate_metrics
    split
    · rfl
    · rfl
  refine ⟨?_, ?_, ?_⟩
  · by_cases hne : p.components.isEmpty
    · unfold Pattern.calculate_metrics
      rw [if_pos hne]
      norm_num
    · have hlen0 : p.components ≠ [] := by simpa [List.isEmpty_iff] using hne
      have hlen : 0 < (p.components.length : ℚ) := by
        exact_mod_cast List.length_pos.mpr hlen0
      have hpops : 0 ≤ (p.components.map (fun c => c.1.popularity_score)).sum := by
        apply List.sum_nonneg
        intro q hq
        rw [List.mem_map] at hq
        obtain ⟨c, hcmem, hqeq⟩ := hq
        exact hqeq ▸ (hpop c hcmem).1
      have hpops2 : (p.components.map (fun c => c.1.popularity_score)).sum ≤
          (p.components.length : ℚ) := by
        have := sum_map_le_length (p.components.map (fun c => c.1.popularity_score))
          (by
            intro q hq
            rw [List.mem_map] at hq
            obtain ⟨c, hcmem, hqeq⟩ := hq
            exact hqeq ▸ (hpop c hcmem).2)
        simpa using this
      have hpavg0 : 0 ≤ (p.components.map (fun c => c.1.popularity_score)).sum /
          (p.components.length : ℚ) := by positivity
      have hpavg1 : (p.components.map (fun c => c.1.popularity_score)).sum /
          (p.components.length : ℚ) ≤ 1 := by
        rw [div_le_one hlen]; exact hpops2
      have hcl := compatStrengths_mem_bounds g p.components hstr
      have hclsum0 : 0 ≤ (compatStrengths g p.components).sum :=
        List.sum_nonneg (fun q hq => (hcl q hq).1)
      have hclsum1 : (compatStrengths g p.components).sum ≤
          ((compatStrengths g p.components).length : ℚ) :=
        sum_map_le_length _ (fun q hq => (hcl q hq).2)
      have hmaxpos : (0:ℚ) < max 1 ((compatStrengths g p.components).length : ℚ) := by
        have h1 : (1:ℚ) ≤ max 1 ((compatStrengths g p.components).length : ℚ) :=
          le_max_left _ _
        linarith
      have hcavg0 : 0 ≤ (compatStrengths g p.components).sum /
          max 1 ((compatStrengths g p.components).length : ℚ) := by positivity
      have hcavg1 : (compatStrengths g p.components).sum /
          max 1 ((compatStrengths g p.components).length : ℚ) ≤ 1 := by
        rw [div_le_one hmaxpos]
        exact le_trans hclsum1 (le_max_right _ _)
      have hsecs : 0 ≤ (p.components.map (fun c => c.1.security_score)).sum := by
        apply List.sum_nonneg
        intro q hq
        rw [List.mem_map] at hq
        obtain ⟨c, hcmem, hqeq⟩ := hq
        exact hqeq ▸ (hsec c hcmem).1
      unfold Pattern.calculate_metrics
      rw [if_neg hne]
      cases hint : p.intent with
      | none =>
        simp only
        constructor
        · nlinarith
        · nlinarith
      | some it =>
        simp only
        split
        · constructor
          · apply le_min (by norm_num)
            have : 0 ≤ (p.components.map (fun c => c.1.security_score)).sum /
                (p.components.length : ℚ) * (1/5) := by positivity
            nlinarith
          · exact min_le_left _ _
        · constructor
          · nlinarith
          · nlinarith
  · rw [hcx]
    constructor
    · apply le_min (by norm_num)
      positivity
    · exact min_le_left _ _
  · intro hnil
    constructor
    · unfold Pattern.calculate_metrics
      rw [if_pos (by rw [hnil]; rfl)]
    · rw [hcx, hnil]
      simp [internalConnections, listProd]

/-- C7 witness: the bounds evaluated on the three-component fixture. -/
theorem calculate_metrics_bounds_witness :
    (0 ≤ (patC4.calculate_metrics gC4).confidence ∧
      (patC4.calculate_metrics gC4).confidence ≤ 1) ∧
    (0 ≤ (patC4.calculate_metrics gC4).complexity ∧
      (patC4.calculate_metrics gC4).complexity ≤ 1) ∧
    (patC4.components = [] →
      (patC4.calculate_metrics gC4).confidence = 0 ∧
      (patC4.calculate_metrics gC4).complexity = 0) :=
  calculate_metrics_bounds gC4 patC4 (by decide) (by decide) (by decide)

/-! ### C8: auditing a lone web-framework component -/

theorem check_licenses_warning (p : Pattern) :
    ∀ f ∈ check_licenses p, f.severity = AuditSeverity.warning := by
  intro f hf
  unfold check_licenses at hf
  rw [List.mem_append] at hf
  rcases hf with hf | hf
  · rw [List.mem_filterMap] at hf
    obtain ⟨lp, _, hlp⟩ := hf
    split at hlp
    · injection hlp with he
      subst he
      rfl
    · simp at hlp
  · split at hf
    · rw [List.mem_singleton] at hf
      subst hf
      rfl
    · simp at hf

theorem check_redundancy_low (p : Pattern) :
    ∀ f ∈ check_redundancy p,
      f.severity = AuditSeverity.warning ∨ f.severity = AuditSeverity.info := by
  intro f hf
  unfold check_redundancy at hf
  rw [List.mem_append] at hf
  rcases hf with hf | hf
  · rw [List.mem_filterMap] at hf
    obtain ⟨cp, _, hcp⟩ := hf
    split at hcp
    · injection hcp with he
      subst he
      exact Or.inl rfl
    · simp at hcp
  · split at hf
    · split at hf
      · rw [List.mem_singleton] at hf
        subst hf
        exact Or.inr rfl
      · simp at hf
    · simp at hf

theorem check_compatibility_singleton (g : SemanticGraph) (p : Pattern)
    (x : OSSProject × String) (hp : p.components = [x]) :
    check_compatibility g p = .ok [] := by
  unfold check_compatibility
  rw [hp]
  rfl

theorem check_best_practices_singleton (p : Pattern) (x : OSSProject × String)
    (hp : p.components = [x]) : check_best_practices p = [] := by
  unfold check_best_practices
  rw [hp]
  norm_num

/-- The missing-authentication error finding of `_check_security`. -/
theorem check_security_singleton (c : OSSProject) (role nm ds : String)
    (hweb : c.capabilities.contains "web_framework" = true)
    (hnoauth : c.capabilities.contains "authentication" = false) :
    ∃ pre,
      check_security { name := nm, description := ds, components := [(c, role)] } =
        pre ++ [⟨AuditCategory.security, AuditSeverity.error, some "Authentication",
          "Missing authentication component in web application",
          some "Add authentication service (Keycloak, Ory Kratos, etc.)",
          some "Web framework present without authentication"⟩] ∧
      ∀ f ∈ pre, f.severity = AuditSeverity.warning := by
  unfold check_security
  simp only [List.map_cons, List.map_nil, List.isEmpty_cons, List.any_cons, List.any_nil,
    Bool.or_false, hweb, hnoauth, Bool.false_eq_true, not_false_iff, and_self, if_true,
    Bool.false_eq_true, if_false]
  split
  · refine ⟨_, rfl, ?_⟩
    intro f hf
    rw [List.mem_singleton] at hf
    subst hf
    rfl
  · exact ⟨[], rfl, by simp⟩

/-- C8 (Scenario B): auditing a pattern whose only component advertises
the web-framework capability and no authentication capability yields,
for every catalog graph, exactly one error-severity finding, in category
security, and no critical finding: all other findings are of lower
severity. -/
theorem single_web_component_audit (g : SemanticGraph) (c : OSSProject) (role nm ds : String)
    (hweb : c.capabilities.contains "web_framework" = true)
    (hnoauth : c.capabilities.contains "authentication" = false) :
    ∃ l, audit_pattern g { name := nm, description := ds, components := [(c, role)] } = .ok l ∧
      (l.filter (fun f => f.severity = AuditSeverity.error)).map (fun f => f.category) =
        [AuditCategory.security] ∧
      l.countP (fun f => f.severity = AuditSeverity.critical) = 0 := by
  have hcompat := check_compatibility_singleton g
    { name := nm, description := ds, components := [(c, role)] } (c, role) rfl
  have hbp := check_best_practices_singleton
    { name := nm, description := ds, components := [(c, role)] } (c, role) rfl
  obtain ⟨pre, hsec, hpre⟩ := check_security_singleton c role nm ds hweb hnoauth
  unfold audit_pattern
  rw [hcompat]
  refine ⟨_, rfl, ?_, ?_⟩
  · rw [hsec, hbp]
    simp only [List.nil_append, List.append_nil, List.filter_append, List.map_append]
    have h1 : (check_licenses { name := nm, description := ds, components := [(c, role)] }).filter
        (fun f => decide (f.severity = AuditSeverity.error)) = [] := by
      rw [List.filter_eq_nil_iff]
      intro f hf
      rw [check_licenses_warning _ f hf]
      decide
    have h2 : pre.filter (fun f => decide (f.severity = AuditSeverity.error)) = [] := by
      rw [List.filter_eq_nil_iff]
      intro f hf
      rw [hpre f hf]
      decide
    have h3 : (check_redundancy { name := nm, description := ds, components := [(c, role)] }).filter
        (fun f => decide (f.severity = AuditSeverity.error)) = [] := by
      rw [List.filter_eq_nil_iff]
      intro f hf
      rcases check_redundancy_low _ f hf with h | h <;> rw [h] <;> decide
    rw [h1, h2, h3]
    rfl
  · rw [hsec, hbp]
    simp only [List.nil_append, List.append_nil, List.countP_append]
    have h1 : (check_licenses { name := nm, description := ds, components := [(c, role)] }).countP
        (fun f => decide (f.severity = AuditSeverity.critical)) = 0 := by
      rw [List.countP_eq_zero]
      intro f hf
      rw [check_licenses_warning _ f hf]
      decide
    have h2 : pre.countP (fun f => decide (f.severity = AuditSeverity.critical)) = 0 := by
      rw [List.countP_eq_zero]
      intro f hf
      rw [hpre f hf]
      decide
    have h3 : (check_redundancy { name := nm, description := ds, components := [(c, role)] }).countP
        (fun f => decide (f.severity = AuditSeverity.critical)) = 0 := by
      rw [List.countP_eq_zero]
      intro f hf
      rcases check_redundancy_low _ f hf with h | h <;> rw [h] <;> decide
    rw [h1, h2, h3]
    rfl

/-- C8 witness: the lone `pFlask` fixture audited against the empty
catalog graph. -/
theorem single_web_component_audit_witness :
    ∃ l, audit_pattern {} { name := "P", description := "", components := [(pFlask, "API")] } =
        .ok l ∧
      (l.filter (fun f => f.severity = AuditSeverity.error)).map (fun f => f.category) =
        [AuditCategory.security] ∧
      l.countP (fun f => f.severity = AuditSeverity.critical) = 0 :=
  single_web_component_audit {} pFlask "API" "P" "" (by decide) (by decide)

/-! ### C4: confidence after adding a compatibility edge -/

theorem findEdge_withEdge (g : SemanticGraph) (u v : String) (d : EdgeData) (a b : String) :
    (g.withEdge u v d).findEdge a b =
      if (a, b) = (u, v) then some d else g.findEdge a b := by
  unfold SemanticGraph.findEdge SemanticGraph.withEdge at *
  by_cases h : (a, b) = (u, v)
  · rw [if_pos h, h]
    exact assocGet_upsert_self _ _ _
  · rw [if_neg h]
    exact assocGet_upsert_ne _ _ _ _ h

theorem filterMap_sum_length_upgrade {α : Type _} (L : List α) (f f' : α → Option ℚ)
    (pr : α → Bool) (s : ℚ)
    (hpt : ∀ x ∈ L, (pr x = true → f x = none ∧ f' x = some s) ∧
                    (pr x = false → f' x = f x)) :
    (L.filterMap f').sum = (L.filterMap f).sum + (L.countP pr : ℚ) * s ∧
    (L.filterMap f').length = (L.filterMap f).length + L.countP pr := by
  induction L with
  | nil => simp
  | cons a L ih =>
    have ha := hpt a (List.mem_cons_self a L)
    have ihh := ih (fun x hx => hpt x (List.mem_cons_of_mem a hx))
    cases hpr : pr a with
    | true =>
      obtain ⟨hfa, hfa'⟩ := ha.1 hpr
      simp only [List.filterMap_cons, hfa, hfa', List.countP_cons, hpr, if_true,
        List.sum_cons, List.length_cons, ihh.1, ihh.2]
      constructor
      · push_cast
        ring
      · omega
    | false =>
      have hff := ha.2 hpr
      cases hfa : f a with
      | none =>
        rw [hfa] at hff
        simp only [List.filterMap_cons, hfa, hff, List.countP_cons, hpr, if_false]
        simpa using ihh
      | some q =>
        rw [hfa] at hff
        simp only [List.filterMap_cons, hfa, hff, List.countP_cons, hpr,
          Bool.false_eq_true, if_false, List.sum_cons, List.length_cons, ihh.1, ihh.2]
        constructor
        · push_cast
          ring
        · omega

theorem avg_append_le (S s : ℚ) (n k : ℕ) (h0 : n = 0 → S = 0)
    (hle : S / max 1 (n : ℚ) ≤ s) :
    S / max 1 (n : ℚ) ≤ (S + (k : ℚ) * s) / max 1 ((n + k : ℕ) : ℚ) := by
  rcases Nat.eq_zero_or_pos k with hk | hk
  · subst hk
    simp
  rcases Nat.eq_zero_or_pos n with hn | hn
  · subst hn
    rw [h0 rfl] at hle ⊢
    have hs : (0:ℚ) ≤ s := by
      have h1 : (0:ℚ) / max 1 ((0:ℕ) : ℚ) = 0 := zero_div _
      linarith [hle, h1]
    simp only [zero_div, zero_add]
    exact div_nonneg (mul_nonneg (Nat.cast_nonneg k) hs)
      (le_of_lt (lt_of_lt_of_le one_pos (le_max_left _ _)))
  · have hn1 : (1:ℚ) ≤ (n:ℚ) := by exact_mod_cast hn
    have hk0 : (0:ℚ) ≤ (k:ℚ) := Nat.cast_nonneg k
    have hmn : max 1 ((n:ℚ)) = (n:ℚ) := max_eq_right hn1
    have hn1k : (1:ℚ) ≤ ((n + k : ℕ):ℚ) := by push_cast; linarith
    have hmnk : max 1 (((n + k : ℕ)):ℚ) = ((n + k : ℕ):ℚ) := max_eq_right hn1k
    rw [hmn] at hle ⊢
    rw [hmnk]
    have hnpos : (0:ℚ) < (n:ℚ) := by linarith
    have hnkpos : (0:ℚ) < ((n + k : ℕ):ℚ) := by linarith
    rw [div_le_div_iff hnpos hnkpos]
    have hS : S ≤ (n:ℚ) * s := by
      rw [div_le_iff hnpos] at hle
      linarith
    push_cast
    nlinarith [mul_nonneg hk0 (sub_nonneg.mpr hS)]

theorem avgCompat_withEdge_le (g : SemanticGraph) (comps : List (OSSProject × String))
    (u v : String) (d : EdgeData)
    (htype : d.relationship_type = "compatible_with")
    (hnone : g.findEdge u v = none)
    (havg : avgCompat g comps ≤ d.strength) :
    avgCompat g comps ≤ avgCompat (g.withEdge u v d) comps := by
  have hpt : ∀ x ∈ idxPairs comps,
      (newPairFlag u v x = true → compatContrib g x = none ∧
        compatContrib (g.withEdge u v d) x = some d.strength) ∧
      (newPairFlag u v x = false →
        compatContrib (g.withEdge u v d) x = compatContrib g x) := by
    intro x _
    constructor
    · intro hp
      unfold newPairFlag at hp
      rw [Bool.and_eq_true, decide_eq_true_eq, decide_eq_true_eq] at hp
      obtain ⟨hij, hnm⟩ := hp
      rw [Prod.mk.injEq] at hnm
      constructor
      · unfold compatContrib
        rw [if_pos hij, hnm.1, hnm.2, hnone]
      · unfold compatContrib
        rw [if_pos hij, hnm.1, hnm.2, findEdge_withEdge, if_pos rfl]
        dsimp only
        rw [if_pos htype]
    · intro hp
      by_cases hij : x.1.1 = x.2.1
      · unfold compatContrib
        rw [if_neg (not_not_intro hij), if_neg (not_not_intro hij)]
      · have hnm : ¬ ((x.1.2.1.name, x.2.2.1.name) = (u, v)) := by
          intro hc
          unfold newPairFlag at hp
          simp [hij, hc] at hp
        unfold compatContrib
        rw [if_pos hij, if_pos hij, findEdge_withEdge, if_neg hnm]
  have hacc := filterMap_sum_length_upgrade (idxPairs comps) (compatContrib g)
    (compatContrib (g.withEdge u v d)) (newPairFlag u v) d.strength hpt
  have h0 : (compatStrengths g comps).length = 0 → (compatStrengths g comps).sum = 0 := by
    intro h
    rw [List.length_eq_zero] at h
    rw [h]
    rfl
  unfold avgCompat compatStrengths at havg h0 ⊢
  rw [hacc.1, hacc.2]
  exact avg_append_le _ _ _ _ h0 havg

theorem calculate_metrics_confidence_mono (g g' : SemanticGraph) (p : Pattern)
    (h : avgCompat g p.components ≤ avgCompat g' p.components) :
    (p.calculate_metrics g).confidence ≤ (p.calculate_metrics g').confidence := by
  unfold avgCompat at h
  unfold Pattern.calculate_metrics
  by_cases he : p.components.isEmpty
  · rw [if_pos he, if_pos he]
  · rw [if_neg he, if_neg he]
    dsimp only
    cases hint : p.intent with
    | none =>
      dsimp only
      linarith
    | some it =>
      dsimp only
      by_cases hhs : it.required_capabilities.contains "high_security" = true
      · rw [if_pos hhs, if_pos hhs]
        apply min_le_min (le_refl 1)
        linarith
      · rw [if_neg hhs, if_neg hhs]
        linarith

/-- C4 amended: adding a `compatible_with` edge of strength at least
`0.7` on an ordered pair that had no edge cannot decrease the pattern's
confidence, provided the new strength is at least the current average
strength of the compatibility pairs counted for the pattern (in
particular, always, when the pattern had no compatibility pairs). Without
that extra proviso the claim is false: see the counterexample. -/
theorem confidence_monotone_of_ge_avg (g : SemanticGraph) (p : Pattern) (u v : String)
    (d : EdgeData)
    (htype : d.relationship_type = "compatible_with")
    (_hstrength : 7/10 ≤ d.strength)
    (hnone : g.findEdge u v = none)
    (havg : avgCompat g p.components ≤ d.strength) :
    (p.calculate_metrics g).confidence ≤
      (p.calculate_metrics (g.withEdge u v d)).confidence :=
  calculate_metrics_confidence_mono g (g.withEdge u v d) p
    (avgCompat_withEdge_le g p.components u v d htype hnone havg)

/-- C4 witness: adding a strength-`1` compatibility edge to the fixture
pattern, whose current average compatibility strength is `1`, does not
decrease its confidence. -/
theorem confidence_monotone_of_ge_avg_witness :
    (patC4.calculate_metrics gC4).confidence ≤
      (patC4.calculate_metrics (gC4.withEdge "A" "C"
        ⟨"compatible_with", 1, none⟩)).confidence :=
  confidence_monotone_of_ge_avg gC4 patC4 "A" "C" ⟨"compatible_with", 1, none⟩
    rfl (by decide) (by decide) (by decide)

/-! ### C5: add-security and mean security scores -/

theorem suggest_security_upgrade_strict (g : SemanticGraph) (proj up : OSSProject)
    (h : suggest_security_upgrade g proj = some up) :
    proj.security_score < up.security_score := by
  unfold suggest_security_upgrade at h
  split at h
  · split at h
    · split at h
      · injection h with he
        subst he
        assumption
      · exact absurd h (by simp)
    · exact absurd h (by simp)
  · exact absurd h (by simp)

theorem securityCopyStep_score (g : SemanticGraph) (c : OSSProject × String) :
    c.1.security_score ≤ (securityCopyStep g c).1.1.security_score ∧
    ((securityCopyStep g c).1 = c ∨
      c.1.security_score < (securityCopyStep g c).1.1.security_score) := by
  unfold securityCopyStep
  cases hs : suggest_security_upgrade g c.1 with
  | none => simp
  | some up =>
    have hlt := suggest_security_upgrade_strict g c.1 up hs
    dsimp only
    split
    · exact ⟨le_of_lt hlt, Or.inr hlt⟩
    · exact ⟨le_refl _, Or.inl rfl⟩

theorem sum_map_eq_iff_pointwise {α : Type _} (f g : α → ℚ) (l : List α) :
    (∀ x ∈ l, f x ≤ g x) →
      (((l.map f).sum = (l.map g).sum) ↔ ∀ x ∈ l, f x = g x) := by
  induction l with
  | nil => intro _; simp
  | cons a l ih =>
    intro h
    have ha := h a (List.mem_cons_self a l)
    have hl : ∀ x ∈ l, f x ≤ g x := fun x hx => h x (List.mem_cons_of_mem a hx)
    have hsum : (l.map f).sum ≤ (l.map g).sum := List.sum_le_sum hl
    simp only [List.map_cons, List.sum_cons]
    constructor
    · intro heq
      have hfa : f a = g a := by linarith
      have hS : (l.map f).sum = (l.map g).sum := by linarith
      intro x hx
      rcases List.mem_cons.mp hx with h1 | h2
      · rw [h1]
        exact hfa
      · exact ((ih hl).mp hS) x h2
    · intro hall
      rw [hall a (List.mem_cons_self a l),
        (ih hl).mpr (fun x hx => hall x (List.mem_cons_of_mem a hx))]

theorem map_eq_self_iff_forall {α : Type _} (f : α → α) (l : List α) :
    l.map f = l ↔ ∀ x ∈ l, f x = x := by
  induction l with
  | nil => simp
  | cons a l ih => simp [ih, List.forall_mem_cons]

theorem add_missing_take (g : SemanticGraph) (ev orig : Pattern) :
    (add_missing_security_components g ev orig).1.components.take ev.components.length =
      ev.components := by
  unfold add_missing_security_components
  dsimp only
  repeat' split
  all_goals simp [Pattern.add_component, List.append_assoc, List.take_left]

theorem take_add_missing (g : SemanticGraph) (ev orig : Pattern) (n : ℕ)
    (hn : ev.components.length = n) :
    (add_missing_security_components g ev orig).1.components.take n = ev.components := by
  subst hn
  exact add_missing_take g ev orig

/-- C5 amended: every security substitution of `_add_security` is applied
only when the mapped target is strictly more secure, so the mean security
score over the components inherited from the original pattern (the first
`|P|` components of the evolved pattern) never decreases, and stays equal
exactly when no substitution applied. The overall mean of the evolved
pattern can still drop below the original when the added authentication or
monitoring components score below it: see the counterexample. -/
theorem add_security_inherited_mean_mono (g : SemanticGraph) (p : Pattern) :
    calculate_pattern_security_score p ≤
      calculate_pattern_security_score
        { p with components := securityCopy g p.components } ∧
    (calculate_pattern_security_score
        { p with components := securityCopy g p.components } =
        calculate_pattern_security_score p ↔
      securityCopy g p.components = p.components) ∧
    (∀ c ∈ p.components, ∀ up, suggest_security_upgrade g c.1 = some up →
      c.1.security_score < up.security_score) ∧
    (add_security g p).components.take p.components.length =
      securityCopy g p.components := by
  have hpt : ∀ c ∈ p.components,
      c.1.security_score ≤ (securityCopyStep g c).1.1.security_score :=
    fun c _ => (securityCopyStep_score g c).1
  have hmap : (securityCopy g p.components).map (fun c => c.1.security_score) =
      p.components.map (fun c => (securityCopyStep g c).1.1.security_score) := by
    unfold securityCopy
    rw [List.map_map]
    rfl
  have hsum : (p.components.map (fun c => c.1.security_score)).sum ≤
      ((securityCopy g p.components).map (fun c => c.1.security_score)).sum := by
    rw [hmap]
    exact List.sum_le_sum hpt
  have hlen : (securityCopy g p.components).length = p.components.length := by
    unfold securityCopy
    rw [List.length_map]
  have hiff : (((securityCopy g p.components).map (fun c => c.1.security_score)).sum =
      (p.components.map (fun c => c.1.security_score)).sum) ↔
      securityCopy g p.components = p.components := by
    rw [hmap, eq_comm,
      sum_map_eq_iff_pointwise (fun c => c.1.security_score)
        (fun c => (securityCopyStep g c).1.1.security_score) p.components hpt]
    unfold securityCopy
    rw [map_eq_self_iff_forall]
    constructor
    · intro hall c hc
      rcases (securityCopyStep_score g c).2 with h | h
      · exact h
      · exact absurd (hall c hc) (ne_of_lt h)
    · intro hall c hc
      rw [hall c hc]
  by_cases hemp : p.components = []
  · refine ⟨?_, ?_, ?_, ?_⟩
    · simp [calculate_pattern_security_score, securityCopy, hemp]
    · simp [calculate_pattern_security_score, securityCopy, hemp]
    · intro c hc
      rw [hemp] at hc
      simp at hc
    · unfold add_security
      dsimp only
      simp [securityCopy, hemp]
  · have hne : p.components ≠ [] := hemp
    have hlenpos : (0:ℚ) < (p.components.length : ℚ) := by
      exact_mod_cast List.length_pos.mpr hne
    have hje : (securityCopy g p.components).isEmpty = false := by
      rw [List.isEmpty_eq_false]
      intro hnil
      have := hlen
      rw [hnil] at this
      exact hne (List.length_eq_zero.mp this.symm)
    have hpe : p.components.isEmpty = false := by
      rw [List.isEmpty_eq_false]
      exact hne
    have hscore1 : calculate_pattern_security_score p =
        (p.components.map (fun c => c.1.security_score)).sum /
          (p.components.length : ℚ) := by
      unfold calculate_pattern_security_score
      rw [hpe]
      simp
    have hscore2 : calculate_pattern_security_score
        { p with components := securityCopy g p.components } =
        ((securityCopy g p.components).map (fun c => c.1.security_score)).sum /
          (p.components.length : ℚ) := by
      unfold calculate_pattern_security_score
      dsimp only
      rw [hje, hlen]
      simp
    have hdiv_iff : ∀ A B : ℚ, (A / (p.components.length : ℚ) = B / (p.components.length : ℚ)) ↔ A = B := by
      intro A B
      constructor
      · intro hAB
        have hne0 : ((p.components.length : ℚ)) ≠ 0 := ne_of_gt hlenpos
        field_simp at hAB
        exact hAB
      · intro hAB
        rw [hAB]
    refine ⟨?_, ?_, ?_, ?_⟩
    · rw [hscore1, hscore2]
      exact (div_le_div_right hlenpos).mpr hsum
    · rw [hscore1, hscore2, hdiv_iff]
      exact hiff
    · intro c hc up hup
      exact suggest_security_upgrade_strict g c.1 up hup
    · unfold add_security
      dsimp only
      repeat' split
      all_goals
        refine Eq.trans (take_add_missing g _ p p.components.length ?_) ?_
        · simp
        · rw [List.map_map]
          rfl

/-- C5 witness: the amended statement evaluated on the fixture: the
inherited mean does not drop, and the evolved pattern starts with the
copied components. -/
theorem add_security_inherited_mean_mono_witness :
    calculate_pattern_security_score patC5 ≤
      calculate_pattern_security_score
        { patC5 with components := securityCopy gC5 patC5.components } ∧
    (add_security gC5 patC5).components.take patC5.components.length =
      securityCopy gC5 patC5.components :=
  ⟨(add_security_inherited_mean_mono gC5 patC5).1,
   (add_security_inherited_mean_mono gC5 patC5).2.2.2⟩

/-! ### C6: when the full-stack pattern is generated -/

theorem mem_insertDescBy {α : Type _} (key : α → ℚ) (a x : α) (l : List α) :
    x ∈ insertDescBy key a l ↔ x = a ∨ x ∈ l := by
  induction l with
  | nil => simp [insertDescBy]
  | cons b l ih =>
    unfold insertDescBy
    split
    · rw [List.mem_cons, ih, List.mem_cons]
      tauto
    · rw [List.mem_cons, List.mem_cons]

theorem mem_sortDescBy {α : Type _} (key : α → ℚ) (x : α) (l : List α) :
    x ∈ sortDescBy key l ↔ x ∈ l := by
  induction l with
  | nil => simp [sortDescBy]
  | cons a l ih =>
    unfold sortDescBy
    rw [mem_insertDescBy, ih, List.mem_cons]

theorem addHeadFor_name (m : List (String × List OSSProject)) (cap role : String)
    (p : Pattern) : (addHeadFor m cap role p).name = p.name := by
  unfold addHeadFor
  repeat' split
  all_goals rfl

theorem addNamedFor_name (m : List (String × List OSSProject)) (cap pname role : String)
    (p : Pattern) : (addNamedFor m cap pname role p).name = p.name := by
  unfold addNamedFor
  repeat' split
  all_goals rfl

theorem minimal_fold_name (L : List (String × List OSSProject)) (p0 : Pattern) :
    (L.foldl
      (fun p capProjs =>
        match capProjs.2 with
        | [] => p
        | pr :: _ =>
          p.add_component pr ((assocGet role_map capProjs.1).getD (capFallbackRole capProjs.1)))
      p0).name = p0.name := by
  induction L generalizing p0 with
  | nil => rfl
  | cons a L ih =>
    rw [List.foldl_cons]
    cases ha : a.2 with
    | nil => rw [ih]
    | cons pr rest => rw [ih]; rfl

theorem generate_cms_name (intent : Intent) (m : List (String × List OSSProject)) :
    ∀ p ∈ generate_cms_pattern intent m, p.name = "Modern Content Management System" := by
  intro p hp
  unfold generate_cms_pattern at hp
  dsimp only at hp
  repeat' split at hp
  all_goals first
    | exact absurd hp (List.not_mem_nil p)
    | (rw [List.mem_singleton] at hp
       subst hp
       simp [addHeadFor_name, addNamedFor_name, Pattern.add_component, mkPattern])

theorem generate_ecommerce_name (intent : Intent) (m : List (String × List OSSProject)) :
    ∀ p ∈ generate_ecommerce_pattern intent m, p.name = "E-commerce Platform" := by
  intro p hp
  unfold generate_ecommerce_pattern at hp
  dsimp only at hp
  repeat' split at hp
  all_goals first
    | exact absurd hp (List.not_mem_nil p)
    | (rw [List.mem_singleton] at hp
       subst hp
       simp [addHeadFor_name, addNamedFor_name, Pattern.add_component, mkPattern])

theorem generate_analytics_name (intent : Intent) (m : List (String × List OSSProject)) :
    ∀ p ∈ generate_analytics_pattern intent m, p.name = "Real-time Analytics Dashboard" := by
  intro p hp
  unfold generate_analytics_pattern at hp
  dsimp only at hp
  repeat' split at hp
  all_goals first
    | exact absurd hp (List.not_mem_nil p)
    | (rw [List.mem_singleton] at hp
       subst hp
       simp [addHeadFor_name, addNamedFor_name, Pattern.add_component, mkPattern])

theorem capability_fs_char (intent : Intent) (m : List (String × List OSSProject)) :
    (∀ p ∈ generate_capability_patterns intent m, p.name = "Full Stack Python API" →
      ∃ wp dp fa pg, assocGet m "web_framework" = some wp ∧
        assocGet m "database" = some dp ∧
        findNamed wp "FastAPI" = some fa ∧ findNamed dp "PostgreSQL" = some pg ∧
        p.components.take 2 = [(fa, "API Framework"), (pg, "Primary Database")]) ∧
    (∀ wp dp fa pg, assocGet m "web_framework" = some wp →
      assocGet m "database" = some dp →
      findNamed wp "FastAPI" = some fa → findNamed dp "PostgreSQL" = some pg →
      ∃ p ∈ generate_capability_patterns intent m, p.name = "Full Stack Python API" ∧
        p.components.take 2 = [(fa, "API Framework"), (pg, "Primary Database")]) := by
  constructor
  · intro p hp hname
    unfold generate_capability_patterns at hp
    rw [List.mem_append] at hp
    rcases hp with hp | hp
    · cases hw : assocGet m "web_framework" with
      | none => rw [hw] at hp; dsimp at hp; exact absurd hp (List.not_mem_nil p)
      | some wp =>
        cases hd : assocGet m "database" with
        | none => rw [hw, hd] at hp; dsimp at hp; exact absurd hp (List.not_mem_nil p)
        | some dp =>
          rw [hw, hd] at hp
          dsimp only at hp
          cases hf : findNamed wp "FastAPI" with
          | none => rw [hf] at hp; dsimp at hp; exact absurd hp (List.not_mem_nil p)
          | some fa =>
            cases hpg : findNamed dp "PostgreSQL" with
            | none => rw [hf, hpg] at hp; dsimp at hp; exact absurd hp (List.not_mem_nil p)
            | some pg =>
              rw [hf, hpg] at hp
              dsimp only at hp
              rw [List.mem_singleton] at hp
              subst hp
              refine ⟨wp, dp, fa, pg, rfl, rfl, hf, hpg, ?_⟩
              unfold addNamedFor
              repeat' split
              all_goals simp [Pattern.add_component, mkPattern]
    · exfalso
      dsimp only at hp
      split at hp
      · exact absurd hp (List.not_mem_nil p)
      · rw [List.mem_singleton] at hp
        subst hp
        dsimp only at hname
        rw [minimal_fold_name] at hname
        simp [mkPattern] at hname
  · intro wp dp fa pg hw hd hf hpg
    unfold generate_capability_patterns
    rw [hw, hd]
    dsimp only
    rw [hf, hpg]
    dsimp only
    refine ⟨_, List.mem_append_left _ (List.mem_singleton_self _), ?_, ?_⟩
    · cases hsq : findNamed dp "SQLAlchemy" <;>
        simp [hsq, addNamedFor_name, Pattern.add_component, mkPattern]
    · unfold addNamedFor
      repeat' split
      all_goals simp [Pattern.add_component, mkPattern]

/-- C6 amended: `weave_for_intent` produces a full-stack pattern exactly
when FastAPI is among the web-framework matches and PostgreSQL among the
database matches; there is no popularity-based fallback pairing, and when
generated the pattern starts with that named pair under the fixed roles. -/
theorem full_stack_iff_named_pair (g : SemanticGraph) (intent : Intent) :
    ((∃ p, p ∈ weave_for_intent g intent ∧ p.name = "Full Stack Python API") ↔
      (∃ wp dp fa pg,
        assocGet (get_matching_projects g intent) "web_framework" = some wp ∧
        assocGet (get_matching_projects g intent) "database" = some dp ∧
        findNamed wp "FastAPI" = some fa ∧ findNamed dp "PostgreSQL" = some pg)) ∧
    (∀ p, p ∈ weave_for_intent g intent → p.name = "Full Stack Python API" →
      ∀ wp dp fa pg,
        assocGet (get_matching_projects g intent) "web_framework" = some wp →
        assocGet (get_matching_projects g intent) "database" = some dp →
        findNamed wp "FastAPI" = some fa → findNamed dp "PostgreSQL" = some pg →
        p.components.take 2 = [(fa, "API Framework"), (pg, "Primary Database")]) := by
  unfold weave_for_intent
  by_cases hm : (get_matching_projects g intent).isEmpty
  · rw [if_pos hm]
    have hmm : get_matching_projects g intent = [] := List.isEmpty_iff.mp hm
    constructor
    · constructor
      · rintro ⟨p, hp, _⟩
        exact absurd hp (List.not_mem_nil p)
      · rintro ⟨wp, dp, fa, pg, h1, _⟩
        rw [hmm] at h1
        simp [assocGet] at h1
    · intro p hp
      exact absurd hp (List.not_mem_nil p)
  · rw [if_neg hm]
    dsimp only
    constructor
    · constructor
      · rintro ⟨p, hp, hname⟩
        rw [mem_sortDescBy, List.mem_append] at hp
        rcases hp with hp | hp
        · exfalso
          repeat' split at hp
          all_goals first
            | exact absurd hp (List.not_mem_nil p)
            | (rw [generate_cms_name intent _ p hp] at hname; simp at hname)
            | (rw [generate_ecommerce_name intent _ p hp] at hname; simp at hname)
            | (rw [generate_analytics_name intent _ p hp] at hname; simp at hname)
        · obtain ⟨wp, dp, fa, pg, h1, h2, h3, h4, _⟩ :=
            (capability_fs_char intent _).1 p hp hname
          exact ⟨wp, dp, fa, pg, h1, h2, h3, h4⟩
      · rintro ⟨wp, dp, fa, pg, h1, h2, h3, h4⟩
        obtain ⟨p, hp, hname, _⟩ := (capability_fs_char intent _).2 wp dp fa pg h1 h2 h3 h4
        refine ⟨p, ?_, hname⟩
        rw [mem_sortDescBy]
        exact List.mem_append_right _ hp
    · intro p hp hname wp dp fa pg h1 h2 h3 h4
      rw [mem_sortDescBy, List.mem_append] at hp
      rcases hp with hp | hp
      · exfalso
        repeat' split at hp
        all_goals first
          | exact absurd hp (List.not_mem_nil p)
          | (rw [generate_cms_name intent _ p hp] at hname; simp at hname)
          | (rw [generate_ecommerce_name intent _ p hp] at hname; simp at hname)
          | (rw [generate_analytics_name intent _ p hp] at hname; simp at hname)
      · obtain ⟨wp', dp', fa', pg', h1', h2', h3', h4', htake⟩ :=
          (capability_fs_char intent _).1 p hp hname
        rw [h1] at h1'
        injection h1' with e1
        subst e1
        rw [h2] at h2'
        injection h2' with e2
        subst e2
        rw [h3] at h3'
        injection h3' with e3
        subst e3
        rw [h4] at h4'
        injection h4' with e4
        subst e4
        exact htake

/-- C6 witness: on the fixture catalog holding FastAPI and PostgreSQL, a
full-stack pattern is generated. -/
theorem full_stack_iff_named_pair_witness :
    ∃ p, p ∈ weave_for_intent gC2 intentC2 ∧ p.name = "Full Stack Python API" :=
  (full_stack_iff_named_pair gC2 intentC2).1.mpr
    ⟨[pDjango, pFastAPI], [pPostgres], pFastAPI, pPostgres,
      by decide, by decide, by decide, by decide⟩

end Loom
